import Mathlib

/-!
Shallow embedding of the PunktGrader grading pipeline.

The frontend page-labeling handlers are translated from the page labeler
component (handlePageLabel, handleKeyboardPageLabel, handleRemovePageLabel,
handleRemoveLastInstancePageLabel, handleRemoveLastLabel).  The backend
session store, background processor, finalize, upload and label handlers are
translated from backend/src/server.ts.  JavaScript objects used as
dictionaries are embedded as association lists; a missing key reads as the
JS default (the empty list, respectively none).
-/

namespace PunktGrader

/-- A PDF document, abstracted to its parse result: either unparseable
(PDFDocument.load throws) or a list of page contents. -/
inductive Pdf where
  | malformed
  | ok (pages : List String)
deriving DecidableEq

/-- processingStatus field of StudentData in server.ts. -/
inductive ProcStatus where
  | pending
  | processing
  | completed
  | error
deriving DecidableEq

/-- StudentData from server.ts: id, name, the original PDF (the model holds
the parse result of the file stored at originalPdfPath), pageLabels and the
processing status fields. -/
structure StudentData where
  id : Int
  name : String
  originalPdf : Pdf
  pageLabels : List (Nat × List Int)
  processingStatus : ProcStatus
  processingError : Option String
deriving DecidableEq

/-- A stamped single-page PDF: the copied source page content plus the
red watermark label drawn on it. -/
structure StampedPdf where
  srcContent : String
  label : String
deriving DecidableEq

/-- ProblemPage from server.ts. -/
structure ProblemPage where
  studentId : Int
  studentName : String
  pageNumber : Nat
  pdfData : StampedPdf
deriving DecidableEq

/-- sessionData from server.ts.  problemPages and finalPdfs are JS objects
keyed by problem number, embedded as association lists. -/
structure SessionState where
  students : List StudentData
  problemPages : List (Int × List ProblemPage)
  finalPdfs : List (Int × List StampedPdf)
deriving DecidableEq

/-! ## Label assignment dictionary (frontend pageLabels state) -/

/-- Read a page's label list; a missing key reads as [] as in
`newLabels[pageNumber] || []`. -/
def getLabels : List (Nat × List Int) → Nat → List Int
  | [], _ => []
  | (k, v) :: rest, page => if k = page then v else getLabels rest page

/-- Write a page's label list: replace the entry if the key exists,
otherwise add a fresh entry (JS property assignment). -/
def setLabels : List (Nat × List Int) → Nat → List Int → List (Nat × List Int)
  | [], page, ls => [(page, ls)]
  | (k, v) :: rest, page, ls =>
      if k = page then (k, ls) :: rest else (k, v) :: setLabels rest page ls

/-- Remove a page's entry (JS `delete newLabels[pageNumber]`). -/
def deleteLabels : List (Nat × List Int) → Nat → List (Nat × List Int)
  | [], _ => []
  | (k, v) :: rest, page =>
      if k = page then deleteLabels rest page
      else (k, v) :: deleteLabels rest page

/-- handlePageLabel from the page labeler: assigning -1 replaces all labels
with just [-1]; a positive number is added only if the sentinel is absent
and the number is not already present; other numbers change nothing. -/
def handlePageLabel (labels : List (Nat × List Int)) (pageNumber : Nat)
    (problemNumber : Int) : List (Nat × List Int) :=
  let currentProblems := getLabels labels pageNumber
  if problemNumber = -1 then
    setLabels labels pageNumber [-1]
  else if problemNumber > 0 then
    if ¬ currentProblems.contains (-1) ∧ ¬ currentProblems.contains problemNumber then
      setLabels labels pageNumber (currentProblems ++ [problemNumber])
    else labels
  else labels

/-- handleKeyboardPageLabel from the page labeler: like handlePageLabel but
a positive number is appended whenever the sentinel is absent, allowing
duplicate labels. -/
def handleKeyboardPageLabel (labels : List (Nat × List Int)) (pageNumber : Nat)
    (problemNumber : Int) : List (Nat × List Int) :=
  let currentProblems := getLabels labels pageNumber
  if problemNumber = -1 then
    setLabels labels pageNumber [-1]
  else if problemNumber > 0 then
    if ¬ currentProblems.contains (-1) then
      setLabels labels pageNumber (currentProblems ++ [problemNumber])
    else labels
  else labels

/-- handleRemovePageLabel: filter out every occurrence of the number; if the
list becomes empty the page's entry is deleted. -/
def handleRemovePageLabel (labels : List (Nat × List Int)) (pageNumber : Nat)
    (problemNumber : Int) : List (Nat × List Int) :=
  let currentProblems := getLabels labels pageNumber
  let filteredProblems := currentProblems.filter (fun p => p ≠ problemNumber)
  if filteredProblems.isEmpty then deleteLabels labels pageNumber
  else setLabels labels pageNumber filteredProblems

/-- Remove the last occurrence of a number from a list (the splice at
lastIndexOf in handleRemoveLastInstancePageLabel). -/
def removeLastOccurrence : List Int → Int → List Int
  | [], _ => []
  | x :: xs, n =>
      if xs.contains n then x :: removeLastOccurrence xs n
      else if x = n then xs
      else x :: xs

/-- handleRemoveLastInstancePageLabel: remove only the last occurrence of
the number; if nothing is found the state is unchanged; an emptied list
deletes the page's entry. -/
def handleRemoveLastInstancePageLabel (labels : List (Nat × List Int))
    (pageNumber : Nat) (problemNumber : Int) : List (Nat × List Int) :=
  let currentProblems := getLabels labels pageNumber
  if currentProblems.contains problemNumber then
    let updatedProblems := removeLastOccurrence currentProblems problemNumber
    if updatedProblems.isEmpty then deleteLabels labels pageNumber
    else setLabels labels pageNumber updatedProblems
  else labels

/-- handleRemoveLastLabel: pop the most recent label of the page; an emptied
list deletes the page's entry. -/
def handleRemoveLastLabel (labels : List (Nat × List Int)) (pageNumber : Nat) :
    List (Nat × List Int) :=
  let currentProblems := getLabels labels pageNumber
  if currentProblems.isEmpty then labels
  else
    let updatedProblems := currentProblems.dropLast
    if updatedProblems.isEmpty then deleteLabels labels pageNumber
    else setLabels labels pageNumber updatedProblems

/-- One label-assignment event at the boundary the labeler exposes. -/
inductive LabelOp where
  | add (page : Nat) (n : Int)
  | keyAdd (page : Nat) (n : Int)
  | remove (page : Nat) (n : Int)
  | removeLastInstance (page : Nat) (n : Int)
  | removeLast (page : Nat)
deriving DecidableEq

/-- Apply one label-assignment event. -/
def applyOp (m : List (Nat × List Int)) : LabelOp → List (Nat × List Int)
  | .add page n => handlePageLabel m page n
  | .keyAdd page n => handleKeyboardPageLabel m page n
  | .remove page n => handleRemovePageLabel m page n
  | .removeLastInstance page n => handleRemoveLastInstancePageLabel m page n
  | .removeLast page => handleRemoveLastLabel m page

/-- Apply a finite sequence of label-assignment events. -/
def applyOps (m : List (Nat × List Int)) (ops : List LabelOp) :
    List (Nat × List Int) :=
  ops.foldl applyOp m

/-! ## Dictionary lemmas -/

theorem getLabels_setLabels (m : List (Nat × List Int)) (p : Nat) (ls : List Int)
    (q : Nat) :
    getLabels (setLabels m p ls) q = if q = p then ls else getLabels m q := by
  induction m with
  | nil =>
    by_cases h : q = p
    · subst h; simp [setLabels, getLabels]
    · simp [setLabels, getLabels, h, Ne.symm h]
  | cons e rest ih =>
    obtain ⟨k, v⟩ := e
    by_cases hk : k = p
    · subst hk
      by_cases hq : q = k
      · subst hq; simp [setLabels, getLabels]
      · simp [setLabels, getLabels, hq, Ne.symm hq]
    · by_cases hq : q = k
      · subst hq
        simp [setLabels, getLabels, hk, Ne.symm hk]
      · simp [setLabels, getLabels, hk, hq, Ne.symm hq, ih]

theorem getLabels_deleteLabels (m : List (Nat × List Int)) (p : Nat) (q : Nat) :
    getLabels (deleteLabels m p) q = if q = p then [] else getLabels m q := by
  induction m with
  | nil => simp [deleteLabels, getLabels]
  | cons e rest ih =>
    obtain ⟨k, v⟩ := e
    by_cases hk : k = p
    · subst hk
      by_cases hq : q = k
      · subst hq; simp [deleteLabels, getLabels, ih]
      · simp [deleteLabels, getLabels, hq, Ne.symm hq, ih]
    · by_cases hq : q = k
      · subst hq
        simp [deleteLabels, getLabels, hk, Ne.symm hk]
      · simp [deleteLabels, getLabels, hk, hq, Ne.symm hq, ih]

/-! ## Backend: stamping engine and background processor -/

/-- Stamping failure modes of the engine. -/
inductive StampError where
  | malformedDocument
  | pageOutOfRange
deriving DecidableEq

/-- Error message captured onto the student (error.message in the catch). -/
def stampErrorMessage : StampError → String
  | .malformedDocument => "MalformedDocument"
  | .pageOutOfRange => "PageOutOfRange"

/-- Watermark text drawn on a stamped page in processStudentInBackground. -/
def watermarkText (problemNumber : Int) (studentName : String)
    (studentId : Int) : String :=
  s!"Problem {problemNumber} - {studentName} - Student nr: {studentId}"

/-- Stamping engine: copy page pageNum (1-based) of the document into a fresh
single-page PDF and draw the watermark on it (the copyPages / drawText block
of processStudentInBackground).  copyPages throws when the page index is
outside the document, which surfaces here as pageOutOfRange. -/
def stampPage (pages : List String) (pageNum : Nat) (problemNumber : Int)
    (studentId : Int) (studentName : String) : Except StampError StampedPdf :=
  if 1 ≤ pageNum ∧ pageNum ≤ pages.length then
    .ok { srcContent := pages.getD (pageNum - 1) "",
          label := watermarkText problemNumber studentName studentId }
  else
    .error .pageOutOfRange

/-- Append a stamped page to the problem's collection, creating the key if
absent (`if (!sessionData.problemPages[n]) ... ; push`). -/
def pushPage : List (Int × List ProblemPage) → Int → ProblemPage →
    List (Int × List ProblemPage)
  | [], n, pg => [(n, [pg])]
  | (k, ps) :: rest, n, pg =>
      if k = n then (k, ps ++ [pg]) :: rest else (k, ps) :: pushPage rest n pg

/-- Inner loop of the background processor over one page's problem numbers:
each positive number is stamped and filed; a stamping failure aborts the
task, keeping the appends already made. -/
def processProblemNums (pages : List String) (studentId : Int)
    (studentName : String) (pageNum : Nat) :
    List Int → List (Int × List ProblemPage) →
    List (Int × List ProblemPage) × Option StampError
  | [], c => (c, none)
  | n :: rest, c =>
      if n > 0 then
        match stampPage pages pageNum n studentId studentName with
        | .ok stamped =>
            processProblemNums pages studentId studentName pageNum rest
              (pushPage c n
                { studentId := studentId, studentName := studentName,
                  pageNumber := pageNum, pdfData := stamped })
        | .error e => (c, some e)
      else processProblemNums pages studentId studentName pageNum rest c

/-- Outer loop of the background processor over the snapshotted label
entries: an entry is processed only when its page number does not exceed the
page count and its list is non-empty; a failure aborts the remaining
entries, keeping the appends already made. -/
def processEntries (pages : List String) (studentId : Int)
    (studentName : String) :
    List (Nat × List Int) → List (Int × List ProblemPage) →
    List (Int × List ProblemPage) × Option StampError
  | [], c => (c, none)
  | (pageNum, problemNums) :: rest, c =>
      if pageNum ≤ pages.length ∧ problemNums.length > 0 then
        match processProblemNums pages studentId studentName pageNum
            problemNums c with
        | (c1, none) => processEntries pages studentId studentName rest c1
        | (c1, some e) => (c1, some e)
      else processEntries pages studentId studentName rest c

/-- students.find(s => s.id === studentId). -/
def findStudent : List StudentData → Int → Option StudentData
  | [], _ => none
  | s :: rest, sid => if s.id = sid then some s else findStudent rest sid

/-- Set the processing status of the student with the given id; the stored
processingError is left as it was (the success path only assigns
processingStatus). -/
def markStatus (students : List StudentData) (sid : Int) (st : ProcStatus) :
    List StudentData :=
  students.map fun s =>
    if s.id = sid then { s with processingStatus := st } else s

/-- Record a failure on the student: status error plus the captured
message (the catch branch of processStudentInBackground). -/
def markError (students : List StudentData) (sid : Int) (msg : String) :
    List StudentData :=
  students.map fun s =>
    if s.id = sid then
      { s with processingStatus := .error, processingError := some msg }
    else s

/-- processStudentInBackground from server.ts, run to completion: find the
student (silently return if unknown), load the PDF (a parse failure is
caught and recorded), walk the snapshotted label entries stamping and filing
pages, and finally mark the student completed, or mark it error while
keeping the appends already made. -/
def processStudentInBackground (st : SessionState) (studentId : Int)
    (studentName : String) (pageLabels : List (Nat × List Int)) :
    SessionState :=
  match findStudent st.students studentId with
  | none => st
  | some student =>
      match student.originalPdf with
      | .malformed =>
          let msg := stampErrorMessage .malformedDocument
          { st with students := markError st.students studentId msg }
      | .ok pages =>
          match processEntries pages studentId studentName pageLabels
              st.problemPages with
          | (c1, none) =>
              { st with
                  students := markStatus st.students studentId .completed,
                  problemPages := c1 }
          | (c1, some e) =>
              { st with
                  students := markError st.students studentId
                    (stampErrorMessage e),
                  problemPages := c1 }

/-! ## Backend: HTTP handlers -/

/-- Responses of the /api/label handler. -/
inductive LabelResult where
  | notFound
  | accepted
deriving DecidableEq

/-- Overwrite the student's name and pageLabels (the synchronous part of the
/api/label handler). -/
def updateStudentLabels (students : List StudentData) (sid : Int)
    (name : String) (labels : List (Nat × List Int)) : List StudentData :=
  students.map fun s =>
    if s.id = sid then { s with name := name, pageLabels := labels } else s

/-- The /api/label handler together with the background task it spawns, run
to completion: an unknown id answers 404 and changes nothing; otherwise the
student's name and labels are overwritten, the request is acknowledged, and
processStudentInBackground runs on the snapshotted arguments. -/
def handleLabel (st : SessionState) (studentId : Int) (studentName : String)
    (pageLabels : List (Nat × List Int)) : LabelResult × SessionState :=
  match findStudent st.students studentId with
  | none => (.notFound, st)
  | some _ =>
      let st1 := { st with students :=
        updateStudentLabels st.students studentId studentName pageLabels }
      (.accepted, processStudentInBackground st1 studentId studentName pageLabels)

/-- Responses of the /api/upload handler. -/
inductive UploadResult where
  | noFiles
  | ok (totalStudents : Nat)
deriving DecidableEq

/-- Build the fresh roster from the uploaded files, ids 1..N in input
order. -/
def rosterOfFiles (files : List Pdf) : List StudentData :=
  (List.range files.length).zip files |>.map fun e =>
    { id := (e.1 : Int) + 1, name := "", originalPdf := e.2,
      pageLabels := [], processingStatus := .pending,
      processingError := none }

/-- The /api/upload handler: req.files is undefined (none) only when the
request carried no multipart file field at all, and that case answers the
400 "No files uploaded"; any array, including the empty one, wipes the
session and builds the roster, answering success with totalStudents. -/
def handleUpload (st : SessionState) (files : Option (List Pdf)) :
    UploadResult × SessionState :=
  match files with
  | none => (.noFiles, st)
  | some fs =>
      (.ok fs.length,
       { students := rosterOfFiles fs, problemPages := [], finalPdfs := [] })

/-! ## Backend: finalizer -/

/-- Concatenate a problem collection's single-page PDFs into the final
per-problem document (the copyPages loop of the /api/finalize handler). -/
def buildFinalPdf (pages : List ProblemPage) : List StampedPdf :=
  pages.map fun p => p.pdfData

/-- Overwrite-or-insert into the finalPdfs dictionary
(`sessionData.finalPdfs[problemNumber] = ...`). -/
def setFinal : List (Int × List StampedPdf) → Int → List StampedPdf →
    List (Int × List StampedPdf)
  | [], n, doc => [(n, doc)]
  | (k, v) :: rest, n, doc =>
      if k = n then (k, doc) :: rest else (k, v) :: setFinal rest n doc

/-- Read the finalPdfs dictionary. -/
def lookupFinal : List (Int × List StampedPdf) → Int → Option (List StampedPdf)
  | [], _ => none
  | (k, v) :: rest, n => if k = n then some v else lookupFinal rest n

/-- Read a problem's collection (`sessionData.problemPages[n]`, defaulting
to the empty collection for an absent key). -/
def lookupCollection : List (Int × List ProblemPage) → Int → List ProblemPage
  | [], _ => []
  | (k, v) :: rest, n => if k = n then v else lookupCollection rest n

/-- The /api/finalize handler: for every problem number present in the
problem collections, rebuild that problem's final PDF from the current
collection and store it. -/
def finalize (st : SessionState) : SessionState :=
  let fp := st.problemPages.foldl
    (fun fp e => setFinal fp e.1 (buildFinalPdf e.2)) st.finalPdfs
  { st with finalPdfs := fp }

/-! ## Counting helpers -/

/-- Number of (page, positive problem number) pairs of a label assignment,
counted with multiplicity. -/
def positivePairCount (pageLabels : List (Nat × List Int)) : Nat :=
  (pageLabels.map fun e => (e.2.filter (fun n => 0 < n)).length).sum

/-- Total number of stamped pages across all problem collections. -/
def totalStampedPages (c : List (Int × List ProblemPage)) : Nat :=
  (c.map fun e => e.2.length).sum

/-- The stamped page the background processor files for occurrence m of an
in-range page p. -/
def mkStampedPage (pages : List String) (studentId : Int)
    (studentName : String) (p : Nat) (m : Int) : ProblemPage :=
  { studentId := studentId, studentName := studentName, pageNumber := p,
    pdfData := { srcContent := pages.getD (p - 1) "",
                 label := watermarkText m studentName studentId } }

/-- The list of stamped pages one background run files under problem n, in
filing order: for each entry passing the page-range guard, one page per
occurrence of n among its positive labels. -/
def stampedPagesFor (pages : List String) (studentId : Int)
    (studentName : String) (labels : List (Nat × List Int)) (n : Int) :
    List ProblemPage :=
  labels.flatMap fun e =>
    if e.1 ≤ pages.length ∧ e.2.length > 0 then
      (e.2.filter fun m => 0 < m ∧ m = n).map
        (mkStampedPage pages studentId studentName e.1)
    else []

/-! ## Sentinel exclusivity (claims C4, C5) -/

/-- No page's label list mixes the sentinel -1 with other labels: if the
sentinel is present, the list is exactly [-1]. -/
def SentinelExclusive (m : List (Nat × List Int)) : Prop :=
  ∀ p, (getLabels m p).contains (-1) = true → getLabels m p = [-1]

theorem sentinelExclusive_nil : SentinelExclusive [] := by
  intro p hp
  simp [getLabels] at hp

theorem sentinelExclusive_set (m : List (Nat × List Int)) (page : Nat)
    (v : List Int) (h : SentinelExclusive m)
    (hv : v.contains (-1) = true → v = [-1]) :
    SentinelExclusive (setLabels m page v) := by
  intro p hp
  rw [getLabels_setLabels] at hp ⊢
  by_cases hpq : p = page
  · simp only [hpq, if_pos rfl] at hp ⊢
    exact hv hp
  · simp only [hpq, if_false] at hp ⊢
    exact h p hp

theorem sentinelExclusive_delete (m : List (Nat × List Int)) (page : Nat)
    (h : SentinelExclusive m) :
    SentinelExclusive (deleteLabels m page) := by
  intro p hp
  rw [getLabels_deleteLabels] at hp ⊢
  by_cases hpq : p = page
  · simp [hpq] at hp
  · simp only [hpq, if_false] at hp ⊢
    exact h p hp

theorem mem_removeLastOccurrence {x n : Int} {l : List Int}
    (h : x ∈ removeLastOccurrence l n) : x ∈ l := by
  induction l with
  | nil => simp [removeLastOccurrence] at h
  | cons a xs ih =>
    rw [removeLastOccurrence] at h
    cases hc : xs.contains n with
    | true =>
      rw [hc] at h
      simp only [if_true] at h
      rcases List.mem_cons.mp h with h1 | h1
      · exact h1 ▸ List.mem_cons_self a xs
      · exact List.mem_cons_of_mem a (ih h1)
    | false =>
      rw [hc] at h
      simp only [Bool.false_eq_true, if_false] at h
      by_cases ha : a = n
      · rw [if_pos ha] at h
        exact List.mem_cons_of_mem a h
      · rw [if_neg ha] at h
        exact h


theorem sentinelExclusive_handlePageLabel (m : List (Nat × List Int))
    (page : Nat) (n : Int) (h : SentinelExclusive m) :
    SentinelExclusive (handlePageLabel m page n) := by
  simp only [handlePageLabel]
  split
  · exact sentinelExclusive_set _ _ _ h (fun _ => rfl)
  · rename_i hn1
    split
    · rename_i hpos
      split
      · rename_i hcond
        apply sentinelExclusive_set _ _ _ h
        intro hc
        exfalso
        have hc2 : (-1 : Int) ∈ getLabels m page ++ [n] := by simpa using hc
        rcases List.mem_append.mp hc2 with hc1 | hc1
        · exact hcond.1 (by simpa using hc1)
        · have hne : (-1 : Int) = n := by simpa using hc1
          omega
      · exact h
    · exact h

theorem sentinelExclusive_handleKeyboardPageLabel (m : List (Nat × List Int))
    (page : Nat) (n : Int) (h : SentinelExclusive m) :
    SentinelExclusive (handleKeyboardPageLabel m page n) := by
  simp only [handleKeyboardPageLabel]
  split
  · exact sentinelExclusive_set _ _ _ h (fun _ => rfl)
  · rename_i hn1
    split
    · rename_i hpos
      split
      · rename_i hcond
        apply sentinelExclusive_set _ _ _ h
        intro hc
        exfalso
        have hc2 : (-1 : Int) ∈ getLabels m page ++ [n] := by simpa using hc
        rcases List.mem_append.mp hc2 with hc1 | hc1
        · exact hcond (by simpa using hc1)
        · have hne : (-1 : Int) = n := by simpa using hc1
          omega
      · exact h
    · exact h

theorem sentinelExclusive_handleRemovePageLabel (m : List (Nat × List Int))
    (page : Nat) (n : Int) (h : SentinelExclusive m) :
    SentinelExclusive (handleRemovePageLabel m page n) := by
  simp only [handleRemovePageLabel]
  split
  · exact sentinelExclusive_delete _ _ h
  · apply sentinelExclusive_set _ _ _ h
    intro hc
    have hm : (-1 : Int) ∈ (getLabels m page).filter (fun p => p ≠ n) := by
      simpa using hc
    have h1 : (-1 : Int) ∈ getLabels m page := (List.mem_filter.mp hm).1
    have h2 : getLabels m page = [-1] := h page (by simpa using h1)
    rw [h2] at hm ⊢
    by_cases hn : n = -1
    · subst hn; simp at hm
    · have hn2 : ¬ ((-1 : Int) = n) := fun hh => hn hh.symm
      simp [List.filter_cons, hn2]

theorem sentinelExclusive_handleRemoveLastInstancePageLabel
    (m : List (Nat × List Int)) (page : Nat) (n : Int)
    (h : SentinelExclusive m) :
    SentinelExclusive (handleRemoveLastInstancePageLabel m page n) := by
  simp only [handleRemoveLastInstancePageLabel]
  split
  · rename_i hg
    split
    · exact sentinelExclusive_delete _ _ h
    · apply sentinelExclusive_set _ _ _ h
      intro hc
      exfalso
      have hm : (-1 : Int) ∈ removeLastOccurrence (getLabels m page) n := by
        simpa using hc
      have h1 : (-1 : Int) ∈ getLabels m page := mem_removeLastOccurrence hm
      have h2 : getLabels m page = [-1] := h page (by simpa using h1)
      have hng : n ∈ getLabels m page := by simpa using hg
      rw [h2] at hm hng
      have hn : n = -1 := by simpa using hng
      subst hn
      simp [removeLastOccurrence] at hm
  · exact h

theorem sentinelExclusive_handleRemoveLastLabel (m : List (Nat × List Int))
    (page : Nat) (h : SentinelExclusive m) :
    SentinelExclusive (handleRemoveLastLabel m page) := by
  simp only [handleRemoveLastLabel]
  split
  · exact h
  · split
    · exact sentinelExclusive_delete _ _ h
    · apply sentinelExclusive_set _ _ _ h
      intro hc
      exfalso
      have hm : (-1 : Int) ∈ (getLabels m page).dropLast := by simpa using hc
      have h1 : (-1 : Int) ∈ getLabels m page :=
        (List.dropLast_sublist (getLabels m page)).subset hm
      have h2 : getLabels m page = [-1] := h page (by simpa using h1)
      rw [h2] at hm
      simp at hm

theorem sentinelExclusive_applyOp (m : List (Nat × List Int)) (op : LabelOp)
    (h : SentinelExclusive m) : SentinelExclusive (applyOp m op) := by
  cases op with
  | add page n => exact sentinelExclusive_handlePageLabel m page n h
  | keyAdd page n => exact sentinelExclusive_handleKeyboardPageLabel m page n h
  | remove page n => exact sentinelExclusive_handleRemovePageLabel m page n h
  | removeLastInstance page n =>
      exact sentinelExclusive_handleRemoveLastInstancePageLabel m page n h
  | removeLast page => exact sentinelExclusive_handleRemoveLastLabel m page h

theorem sentinelExclusive_applyOps (ops : List LabelOp)
    (m : List (Nat × List Int)) (h : SentinelExclusive m) :
    SentinelExclusive (applyOps m ops) := by
  induction ops generalizing m with
  | nil => exact h
  | cons op rest ih =>
      rw [applyOps, List.foldl_cons]
      exact ih (applyOp m op) (sentinelExclusive_applyOp m op h)

/-- Adding a positive problem number to a page whose label list holds the
sentinel leaves the assignment unchanged, for both add handlers. -/
theorem add_sentinel_noop (m : List (Nat × List Int)) (page : Nat) (n : Int)
    (hn : 0 < n) (hs : (getLabels m page).contains (-1) = true) :
    handlePageLabel m page n = m ∧ handleKeyboardPageLabel m page n = m := by
  have hn1 : ¬ (n = -1) := by omega
  have hs2 : (-1 : Int) ∈ getLabels m page := by simpa using hs
  constructor
  · simp [handlePageLabel, hn1, hn, hs2]
  · simp [handleKeyboardPageLabel, hn1, hn, hs2]

/-- Claim C4 counterexample: on a page labeled with the sentinel, applying
the label-add operation with the positive number 5 does not remove the
sentinel and does not leave the page labeled [5]; the assignment is
unchanged (and likewise for the keyboard add). -/
theorem claim_C4_counterexample :
    (getLabels (handlePageLabel [(1, [-1])] 1 5) 1).contains (-1) = true
    ∧ getLabels (handlePageLabel [(1, [-1])] 1 5) 1 ≠ [5]
    ∧ (getLabels (handleKeyboardPageLabel [(1, [-1])] 1 5) 1).contains (-1) = true
    ∧ getLabels (handleKeyboardPageLabel [(1, [-1])] 1 5) 1 ≠ [5] := by
  decide

/-- Claim C4 (amended): applying the label-add operation (either handler)
with a positive problem number to a page whose label set currently contains
the sentinel -1 is a no-op: the assignment is unchanged, so the page keeps
exactly the sentinel until it is removed by a remove operation. -/
theorem claim_C4_add_on_sentinel_page_is_noop (m : List (Nat × List Int))
    (page : Nat) (n : Int) (hn : 0 < n)
    (hs : (getLabels m page).contains (-1) = true) :
    handlePageLabel m page n = m ∧ handleKeyboardPageLabel m page n = m :=
  add_sentinel_noop m page n hn hs

/-- Witness for claim C4's amended theorem at a concrete input. -/
theorem claim_C4_witness :
    handlePageLabel [(1, [-1])] 1 5 = [(1, [-1])]
    ∧ handleKeyboardPageLabel [(1, [-1])] 1 5 = [(1, [-1])] :=
  claim_C4_add_on_sentinel_page_is_noop [(1, [-1])] 1 5 (by decide) (by decide)

/-- Claim C5: starting from the empty label assignment, after any finite
sequence of add, keyboard add and remove operations no page's label list
contains both the sentinel -1 and a positive number; assigning the sentinel
replaces all existing labels of the page with just [-1]; and assigning a
positive number while the sentinel is present leaves the assignment
unchanged. -/
theorem claim_C5_sentinel_mutual_exclusion :
    (∀ (ops : List LabelOp) (p : Nat),
        ¬ ((getLabels (applyOps [] ops) p).contains (-1) = true
            ∧ ∃ n : Int, 0 < n ∧ (getLabels (applyOps [] ops) p).contains n = true))
    ∧ (∀ (m : List (Nat × List Int)) (page : Nat),
        getLabels (handlePageLabel m page (-1)) page = [-1]
        ∧ getLabels (handleKeyboardPageLabel m page (-1)) page = [-1])
    ∧ (∀ (m : List (Nat × List Int)) (page : Nat) (n : Int), 0 < n →
        (getLabels m page).contains (-1) = true →
        handlePageLabel m page n = m ∧ handleKeyboardPageLabel m page n = m) := by
  refine ⟨?_, ?_, ?_⟩
  · rintro ops p ⟨hs, n, hn, hmem⟩
    have hinv := sentinelExclusive_applyOps ops [] sentinelExclusive_nil p hs
    rw [hinv] at hmem
    have : n = -1 := by simpa using hmem
    omega
  · intro m page
    constructor
    · simp [handlePageLabel, getLabels_setLabels]
    · simp [handleKeyboardPageLabel, getLabels_setLabels]
  · intro m page n hn hs
    exact add_sentinel_noop m page n hn hs

/-- Witness for claim C5 at concrete inputs. -/
theorem claim_C5_witness :
    (¬ ((getLabels (applyOps [] [.keyAdd 1 2, .add 1 (-1)]) 1).contains (-1) = true
        ∧ ∃ n : Int, 0 < n
            ∧ (getLabels (applyOps [] [.keyAdd 1 2, .add 1 (-1)]) 1).contains n = true))
    ∧ (handlePageLabel [(2, [-1])] 2 7 = [(2, [-1])]
        ∧ handleKeyboardPageLabel [(2, [-1])] 2 7 = [(2, [-1])]) :=
  ⟨claim_C5_sentinel_mutual_exclusion.1 [.keyAdd 1 2, .add 1 (-1)] 1,
   claim_C5_sentinel_mutual_exclusion.2.2 [(2, [-1])] 2 7 (by decide) (by decide)⟩

/-! ## Background processor lemmas -/

theorem totalStampedPages_pushPage (c : List (Int × List ProblemPage))
    (n : Int) (pg : ProblemPage) :
    totalStampedPages (pushPage c n pg) = totalStampedPages c + 1 := by
  induction c with
  | nil => simp [pushPage, totalStampedPages]
  | cons e rest ih =>
    obtain ⟨k, ps⟩ := e
    by_cases hk : k = n
    · simp [pushPage, hk, totalStampedPages]
      omega
    · simp [pushPage, hk, totalStampedPages] at ih ⊢
      omega

theorem lookupCollection_pushPage (c : List (Int × List ProblemPage))
    (n : Int) (pg : ProblemPage) (q : Int) :
    lookupCollection (pushPage c n pg) q =
      if q = n then lookupCollection c n ++ [pg] else lookupCollection c q := by
  induction c with
  | nil =>
    by_cases hq : q = n
    · simp [pushPage, lookupCollection, hq]
    · simp [pushPage, lookupCollection, hq, Ne.symm hq]
  | cons e rest ih =>
    obtain ⟨k, ps⟩ := e
    by_cases hk : k = n
    · subst hk
      by_cases hq : q = k
      · subst hq; simp [pushPage, lookupCollection]
      · simp [pushPage, lookupCollection, hq, Ne.symm hq]
    · by_cases hq : q = k
      · subst hq
        simp [pushPage, lookupCollection, hk, Ne.symm hk, ih]
      · simp [pushPage, lookupCollection, hk, hq, Ne.symm hq, ih]

theorem stampPage_in_range (pages : List String) (p : Nat) (n sid : Int)
    (sname : String) (h1 : 1 ≤ p) (h2 : p ≤ pages.length) :
    stampPage pages p n sid sname =
      .ok { srcContent := pages.getD (p - 1) "",
            label := watermarkText n sname sid } := by
  simp [stampPage, h1, h2]

theorem processProblemNums_spec (pages : List String) (sid : Int)
    (sname : String) (p : Nat) (h1 : 1 ≤ p) (h2 : p ≤ pages.length) :
    ∀ (nums : List Int) (c : List (Int × List ProblemPage)),
      (processProblemNums pages sid sname p nums c).2 = none
      ∧ totalStampedPages (processProblemNums pages sid sname p nums c).1
          = totalStampedPages c + (nums.filter (fun n => 0 < n)).length
      ∧ ∀ q, lookupCollection (processProblemNums pages sid sname p nums c).1 q
          = lookupCollection c q
            ++ (nums.filter (fun m => 0 < m ∧ m = q)).map
                (mkStampedPage pages sid sname p)
  | [], c => by simp [processProblemNums]
  | n :: rest, c => by
    by_cases hn : n > 0
    · have hstamp := stampPage_in_range pages p n sid sname h1 h2
      have hred : processProblemNums pages sid sname p (n :: rest) c
          = processProblemNums pages sid sname p rest
              (pushPage c n (mkStampedPage pages sid sname p n)) := by
        rw [processProblemNums, if_pos hn, hstamp]
        rfl
      obtain ⟨ih1, ih2, ih3⟩ := processProblemNums_spec pages sid sname p h1 h2
        rest (pushPage c n (mkStampedPage pages sid sname p n))
      refine ⟨by rw [hred]; exact ih1, ?_, ?_⟩
      · rw [hred, ih2, totalStampedPages_pushPage]
        have : (List.filter (fun n => decide (0 < n)) (n :: rest)).length
            = (List.filter (fun n => decide (0 < n)) rest).length + 1 := by
          simp [List.filter_cons, hn]
        omega
      · intro q
        rw [hred, ih3 q, lookupCollection_pushPage]
        by_cases hq : q = n
        · subst hq
          simp [List.filter_cons, hn, mkStampedPage]
        · have : ¬ (0 < n ∧ n = q) := fun hh => hq hh.2.symm
          simp [List.filter_cons, hq, this]
    · have hred : processProblemNums pages sid sname p (n :: rest) c
          = processProblemNums pages sid sname p rest c := by
        rw [processProblemNums, if_neg hn]
      obtain ⟨ih1, ih2, ih3⟩ := processProblemNums_spec pages sid sname p h1 h2 rest c
      refine ⟨by rw [hred]; exact ih1, ?_, ?_⟩
      · rw [hred, ih2]
        simp [List.filter_cons, hn]
      · intro q
        rw [hred, ih3 q]
        have : ¬ (0 < n ∧ n = q) := fun hh => hn hh.1
        simp [List.filter_cons, this]

theorem processEntries_spec (pages : List String) (sid : Int) (sname : String) :
    ∀ (labels : List (Nat × List Int)) (c : List (Int × List ProblemPage)),
      (∀ e ∈ labels, 1 ≤ e.1) →
      (processEntries pages sid sname labels c).2 = none
      ∧ totalStampedPages (processEntries pages sid sname labels c).1
          = totalStampedPages c
            + positivePairCount (labels.filter (fun e => e.1 ≤ pages.length))
      ∧ ∀ q, lookupCollection (processEntries pages sid sname labels c).1 q
          = lookupCollection c q ++ stampedPagesFor pages sid sname labels q
  | [], c, _ => by simp [processEntries, positivePairCount, stampedPagesFor]
  | (p, nums) :: rest, c, h => by
    have hp1 : 1 ≤ p := h (p, nums) (List.mem_cons_self _ _)
    have hrest : ∀ e ∈ rest, 1 ≤ e.1 :=
      fun e he => h e (List.mem_cons_of_mem _ he)
    by_cases hg : p ≤ pages.length ∧ nums.length > 0
    · obtain ⟨hs1, hs2, hs3⟩ :=
        processProblemNums_spec pages sid sname p hp1 hg.1 nums c
      rcases hpp : processProblemNums pages sid sname p nums c with ⟨c1, err⟩
      rw [hpp] at hs1 hs2 hs3
      simp only at hs1
      subst hs1
      have hred : processEntries pages sid sname ((p, nums) :: rest) c
          = processEntries pages sid sname rest c1 := by
        rw [processEntries, if_pos hg, hpp]
      obtain ⟨ih1, ih2, ih3⟩ := processEntries_spec pages sid sname rest c1 hrest
      refine ⟨by rw [hred]; exact ih1, ?_, ?_⟩
      · rw [hred, ih2]
        simp only at hs2
        rw [hs2]
        have : positivePairCount
              (((p, nums) :: rest).filter (fun e => e.1 ≤ pages.length))
            = (nums.filter (fun n => 0 < n)).length
              + positivePairCount (rest.filter (fun e => e.1 ≤ pages.length)) := by
          simp [List.filter_cons, hg.1, positivePairCount]
        omega
      · intro q
        rw [hred, ih3 q]
        simp only at hs3
        rw [hs3 q]
        have : stampedPagesFor pages sid sname ((p, nums) :: rest) q
            = (nums.filter (fun m => 0 < m ∧ m = q)).map
                (mkStampedPage pages sid sname p)
              ++ stampedPagesFor pages sid sname rest q := by
          simp [stampedPagesFor, List.flatMap_cons, hg]
        rw [this, List.append_assoc]
    · have hred : processEntries pages sid sname ((p, nums) :: rest) c
          = processEntries pages sid sname rest c := by
        rw [processEntries, if_neg hg]
      obtain ⟨ih1, ih2, ih3⟩ := processEntries_spec pages sid sname rest c hrest
      refine ⟨by rw [hred]; exact ih1, ?_, ?_⟩
      · rw [hred, ih2]
        by_cases hlen : p ≤ pages.length
        · have hnil : nums = [] := by
            rcases Nat.eq_zero_or_pos nums.length with h0 | hpos
            · exact List.eq_nil_of_length_eq_zero h0
            · exact absurd ⟨hlen, hpos⟩ hg
          subst hnil
          simp [List.filter_cons, hlen, positivePairCount]
        · simp [List.filter_cons, hlen]
      · intro q
        rw [hred, ih3 q]
        have : stampedPagesFor pages sid sname ((p, nums) :: rest) q
            = stampedPagesFor pages sid sname rest q := by
          simp [stampedPagesFor, List.flatMap_cons, hg]
        rw [this]

theorem findStudent_eq_none (l : List StudentData) (sid : Int)
    (h : ∀ s ∈ l, s.id ≠ sid) : findStudent l sid = none := by
  induction l with
  | nil => rfl
  | cons s rest ih =>
      rw [findStudent, if_neg (h s (List.mem_cons_self s rest))]
      exact ih fun t ht => h t (List.mem_cons_of_mem s ht)

theorem findStudent_map (f : StudentData → StudentData)
    (hf : ∀ s, (f s).id = s.id) (l : List StudentData) (sid : Int) :
    findStudent (l.map f) sid = (findStudent l sid).map f := by
  induction l with
  | nil => rfl
  | cons s rest ih =>
      rw [List.map_cons, findStudent, findStudent, hf s]
      by_cases hs : s.id = sid
      · simp [hs]
      · simp [hs, ih]

theorem processingStatus_markStatus (l : List StudentData) (sid : Int)
    (stt : ProcStatus) (s' : StudentData) (hm : s' ∈ markStatus l sid stt)
    (hid : s'.id = sid) : s'.processingStatus = stt := by
  rcases List.mem_map.mp hm with ⟨s, hs, rfl⟩
  by_cases h : s.id = sid
  · simp only [if_pos h]
  · simp only [if_neg h] at hid ⊢
    exact absurd hid h

/-- Behaviour of one successful background run for a known student with a
parseable document all of whose labeled pages are at least 1: the student is
marked completed, final PDFs are untouched, the total page count grows by
the positive pairs of the in-range entries, and each problem's collection is
extended by exactly the pages this run stamps for it. -/
theorem processStudentInBackground_spec (st : SessionState) (sid : Int)
    (sname : String) (labels : List (Nat × List Int)) (student : StudentData)
    (pages : List String)
    (hfind : findStudent st.students sid = some student)
    (hpdf : student.originalPdf = .ok pages)
    (hpp : ∀ e ∈ labels, 1 ≤ e.1) :
    (processStudentInBackground st sid sname labels).students
        = markStatus st.students sid .completed
    ∧ (processStudentInBackground st sid sname labels).finalPdfs = st.finalPdfs
    ∧ totalStampedPages (processStudentInBackground st sid sname labels).problemPages
        = totalStampedPages st.problemPages
          + positivePairCount (labels.filter (fun e => e.1 ≤ pages.length))
    ∧ ∀ q, lookupCollection (processStudentInBackground st sid sname labels).problemPages q
        = lookupCollection st.problemPages q
          ++ stampedPagesFor pages sid sname labels q := by
  obtain ⟨h0, h2, h3⟩ := processEntries_spec pages sid sname labels st.problemPages hpp
  rcases hpe : processEntries pages sid sname labels st.problemPages with ⟨c1, err⟩
  rw [hpe] at h0 h2 h3
  simp only at h0 h2 h3
  subst h0
  simp only [processStudentInBackground, hfind, hpdf, hpe]
  exact ⟨trivial, trivial, h2, h3⟩

/-- Claim C1: for a valid label assignment (every labeled page within the
document's 1-based page range), one student's background run appends, across
all problem collections, exactly one stamped page per (page, positive
problem number) pair counted with multiplicity; sentinel and other
non-positive entries contribute nothing. -/
theorem claim_C1_stamped_page_count (st : SessionState) (sid : Int)
    (sname : String) (labels : List (Nat × List Int)) (student : StudentData)
    (pages : List String)
    (hfind : findStudent st.students sid = some student)
    (hpdf : student.originalPdf = .ok pages)
    (hvalid : ∀ e ∈ labels, 1 ≤ e.1 ∧ e.1 ≤ pages.length) :
    totalStampedPages (processStudentInBackground st sid sname labels).problemPages
      = totalStampedPages st.problemPages + positivePairCount labels := by
  obtain ⟨-, -, h2, -⟩ :=
    processStudentInBackground_spec st sid sname labels student pages hfind hpdf
      (fun e he => (hvalid e he).1)
  rw [h2]
  have hf : labels.filter (fun e => e.1 ≤ pages.length) = labels :=
    List.filter_eq_self.mpr (fun e he => by simpa using (hvalid e he).2)
  rw [hf]

/-- Witness for claim C1 at a concrete session. -/
theorem claim_C1_witness :
    totalStampedPages
        (processStudentInBackground
          ⟨[⟨1, "", .ok ["a", "b"], [], .pending, none⟩], [], []⟩
          1 "N" [(1, [2, -1]), (2, [2, 3])]).problemPages
      = totalStampedPages
          (⟨[⟨1, "", .ok ["a", "b"], [], .pending, none⟩], [], []⟩ :
            SessionState).problemPages
        + positivePairCount [(1, [2, -1]), (2, [2, 3])] :=
  claim_C1_stamped_page_count
    ⟨[⟨1, "", .ok ["a", "b"], [], .pending, none⟩], [], []⟩
    1 "N" [(1, [2, -1]), (2, [2, 3])]
    ⟨1, "", .ok ["a", "b"], [], .pending, none⟩ ["a", "b"]
    (by decide) (by decide) (by decide)

/-- Claim C2 counterexample: a known student (one-page document) submits a
label assignment whose only page number, 2, exceeds the page count; the
background run does not record any error — the student ends completed with
no stored message, no stamped page is filed, and no exception escapes (the
run is a total function). -/
theorem claim_C2_counterexample :
    (processStudentInBackground
        ⟨[⟨1, "", .ok ["page1"], [], .pending, none⟩], [], []⟩
        1 "Alice" [(2, [1])]).students.map
          (fun s => (s.processingStatus, s.processingError))
      = [(.completed, none)]
    ∧ (processStudentInBackground
        ⟨[⟨1, "", .ok ["page1"], [], .pending, none⟩], [], []⟩
        1 "Alice" [(2, [1])]).problemPages = [] := by
  decide

/-- Claim C2 (amended): the background processor's page-range guard skips
every entry whose page number exceeds the document's page count, so the
stamping engine is never invoked for it: no PageOutOfRange failure occurs,
the student's status ends completed, the skipped entries contribute zero
stamped pages (only in-range entries are counted), and the run terminates
normally. -/
theorem claim_C2_out_of_range_pages_skipped (st : SessionState) (sid : Int)
    (sname : String) (labels : List (Nat × List Int)) (student : StudentData)
    (pages : List String)
    (hfind : findStudent st.students sid = some student)
    (hpdf : student.originalPdf = .ok pages)
    (hpp : ∀ e ∈ labels, 1 ≤ e.1) :
    (∀ s' ∈ (processStudentInBackground st sid sname labels).students,
        s'.id = sid → s'.processingStatus = .completed)
    ∧ totalStampedPages (processStudentInBackground st sid sname labels).problemPages
        = totalStampedPages st.problemPages
          + positivePairCount (labels.filter (fun e => e.1 ≤ pages.length)) := by
  obtain ⟨h1, -, h2, -⟩ :=
    processStudentInBackground_spec st sid sname labels student pages hfind hpdf hpp
  refine ⟨?_, h2⟩
  intro s' hm hid
  rw [h1] at hm
  exact processingStatus_markStatus _ _ _ _ hm hid

/-- Witness for claim C2's amended theorem: one in-range and one
out-of-range entry. -/
theorem claim_C2_witness :
    (∀ s' ∈ (processStudentInBackground
        ⟨[⟨1, "", .ok ["page1"], [], .pending, none⟩], [], []⟩
        1 "Alice" [(1, [3]), (2, [1])]).students,
        s'.id = 1 → s'.processingStatus = .completed)
    ∧ totalStampedPages (processStudentInBackground
        ⟨[⟨1, "", .ok ["page1"], [], .pending, none⟩], [], []⟩
        1 "Alice" [(1, [3]), (2, [1])]).problemPages
      = totalStampedPages
          (⟨[⟨1, "", .ok ["page1"], [], .pending, none⟩], [], []⟩ :
            SessionState).problemPages
        + positivePairCount
            ([(1, [3]), (2, [1])].filter (fun e => e.1 ≤ (["page1"] : List String).length)) :=
  claim_C2_out_of_range_pages_skipped
    ⟨[⟨1, "", .ok ["page1"], [], .pending, none⟩], [], []⟩
    1 "Alice" [(1, [3]), (2, [1])]
    ⟨1, "", .ok ["page1"], [], .pending, none⟩ ["page1"]
    (by decide) (by decide) (by decide)

theorem processProblemNums_no_positive (pages : List String) (sid : Int)
    (sname : String) (p : Nat) :
    ∀ (nums : List Int) (c : List (Int × List ProblemPage)),
      (∀ n ∈ nums, ¬ 0 < n) →
      processProblemNums pages sid sname p nums c = (c, none)
  | [], c, _ => rfl
  | n :: rest, c, h => by
      rw [processProblemNums, if_neg (h n (List.mem_cons_self _ _))]
      exact processProblemNums_no_positive pages sid sname p rest c
        (fun x hx => h x (List.mem_cons_of_mem _ hx))

theorem processEntries_skip_all (pages : List String) (sid : Int)
    (sname : String) :
    ∀ (labels : List (Nat × List Int)) (c : List (Int × List ProblemPage)),
      (∀ e ∈ labels, pages.length < e.1 ∨ ∀ n ∈ e.2, ¬ 0 < n) →
      processEntries pages sid sname labels c = (c, none)
  | [], c, _ => rfl
  | (p, nums) :: rest, c, h => by
      have hrest : ∀ e ∈ rest, pages.length < e.1 ∨ ∀ n ∈ e.2, ¬ 0 < n :=
        fun e he => h e (List.mem_cons_of_mem _ he)
      rcases h (p, nums) (List.mem_cons_self _ _) with hlen | hnp
      · rw [processEntries, if_neg (by omega)]
        exact processEntries_skip_all pages sid sname rest c hrest
      · by_cases hg : p ≤ pages.length ∧ nums.length > 0
        · rw [processEntries, if_pos hg,
            processProblemNums_no_positive pages sid sname p nums c hnp]
          exact processEntries_skip_all pages sid sname rest c hrest
        · rw [processEntries, if_neg hg]
          exact processEntries_skip_all pages sid sname rest c hrest

/-- Claim C9: a background run for a known student with a parseable document
whose snapshotted assignment is empty, all-sentinel (or otherwise without
positive numbers), or entirely out of the page range, ends with status
completed and leaves every problem collection unchanged — completed does not
imply pages were produced. -/
theorem claim_C9_vacuous_run_completes (st : SessionState) (sid : Int)
    (sname : String) (labels : List (Nat × List Int)) (student : StudentData)
    (pages : List String)
    (hfind : findStudent st.students sid = some student)
    (hpdf : student.originalPdf = .ok pages)
    (hvac : ∀ e ∈ labels, pages.length < e.1 ∨ ∀ n ∈ e.2, ¬ 0 < n) :
    (processStudentInBackground st sid sname labels).problemPages
        = st.problemPages
    ∧ ∀ s' ∈ (processStudentInBackground st sid sname labels).students,
        s'.id = sid → s'.processingStatus = .completed := by
  have hpe := processEntries_skip_all pages sid sname labels st.problemPages hvac
  simp only [processStudentInBackground, hfind, hpdf, hpe]
  exact ⟨trivial, fun s' hm hid => processingStatus_markStatus _ _ _ _ hm hid⟩

/-- Witness for claim C9: an assignment with a sentinel-only page and an
out-of-range page. -/
theorem claim_C9_witness :
    (processStudentInBackground
        ⟨[⟨1, "", .ok ["pg"], [], .pending, none⟩], [], []⟩
        1 "B" [(1, [-1]), (5, [2])]).problemPages
      = (⟨[⟨1, "", .ok ["pg"], [], .pending, none⟩], [], []⟩ :
            SessionState).problemPages
    ∧ ∀ s' ∈ (processStudentInBackground
        ⟨[⟨1, "", .ok ["pg"], [], .pending, none⟩], [], []⟩
        1 "B" [(1, [-1]), (5, [2])]).students,
        s'.id = 1 → s'.processingStatus = .completed :=
  claim_C9_vacuous_run_completes
    ⟨[⟨1, "", .ok ["pg"], [], .pending, none⟩], [], []⟩
    1 "B" [(1, [-1]), (5, [2])]
    ⟨1, "", .ok ["pg"], [], .pending, none⟩ ["pg"]
    (by decide) (by decide) (by decide)

/-- Claim C7: submitting labels for a student id not present in the roster
answers NotFound and returns the session store exactly as it was — roster,
names, label assignments, problem collections and final PDFs unchanged —
and no background task runs. -/
theorem claim_C7_unknown_student_state_unchanged (st : SessionState)
    (sid : Int) (sname : String) (labels : List (Nat × List Int))
    (h : ∀ s ∈ st.students, s.id ≠ sid) :
    handleLabel st sid sname labels = (.notFound, st) := by
  simp only [handleLabel, findStudent_eq_none st.students sid h]

/-- Witness for claim C7: submitting for id 2 with only student 1 known. -/
theorem claim_C7_witness :
    handleLabel ⟨[⟨1, "a", .ok ["p"], [], .pending, none⟩], [], []⟩
        2 "X" [(1, [1])]
      = (.notFound, ⟨[⟨1, "a", .ok ["p"], [], .pending, none⟩], [], []⟩) :=
  claim_C7_unknown_student_state_unchanged
    ⟨[⟨1, "a", .ok ["p"], [], .pending, none⟩], [], []⟩
    2 "X" [(1, [1])] (by decide)

/-- Claim C3 (code-bug evidence): an upload whose file array is empty is
answered with the success payload totalStudents = 0 after wiping the
session, not with the error response — the handler's guard only catches a
missing or non-array files field. -/
theorem claim_C3_empty_upload_succeeds :
    handleUpload
        ⟨[⟨1, "x", .ok ["p"], [(1, [1])], .completed, none⟩],
         [(1, [⟨1, "x", 1, ⟨"p", "w"⟩⟩])], [(1, [⟨"p", "w"⟩])]⟩
        (some [])
      = (.ok 0, ⟨[], [], []⟩)
    ∧ handleUpload ⟨[], [], []⟩ none = (.noFiles, ⟨[], [], []⟩) := by
  decide

theorem findStudent_some_id (l : List StudentData) (sid : Int)
    (s : StudentData) (h : findStudent l sid = some s) : s.id = sid := by
  induction l with
  | nil => simp [findStudent] at h
  | cons t rest ih =>
      rw [findStudent] at h
      by_cases ht : t.id = sid
      · rw [if_pos ht] at h
        cases h
        exact ht
      · rw [if_neg ht] at h
        exact ih h

/-- One accepted label submission, background task included: the student
stays findable with the same original document, and every problem collection
is extended by exactly the pages this run stamps for it. -/
theorem handleLabel_spec (st : SessionState) (sid : Int) (sname : String)
    (labels : List (Nat × List Int)) (student : StudentData)
    (pages : List String)
    (hfind : findStudent st.students sid = some student)
    (hpdf : student.originalPdf = .ok pages)
    (hpp : ∀ e ∈ labels, 1 ≤ e.1) :
    ∃ student1,
      findStudent ((handleLabel st sid sname labels).2).students sid
          = some student1
      ∧ student1.originalPdf = .ok pages
      ∧ ∀ q, lookupCollection ((handleLabel st sid sname labels).2).problemPages q
          = lookupCollection st.problemPages q
            ++ stampedPagesFor pages sid sname labels q := by
  have hsid : student.id = sid := findStudent_some_id _ _ _ hfind
  have hred : (handleLabel st sid sname labels).2
      = processStudentInBackground
          { st with students := updateStudentLabels st.students sid sname labels }
          sid sname labels := by
    simp only [handleLabel, hfind]
  have hfindU : findStudent (updateStudentLabels st.students sid sname labels) sid
      = some { student with name := sname, pageLabels := labels } := by
    unfold updateStudentLabels
    rw [findStudent_map _ (fun s => by by_cases h : s.id = sid <;> simp [h]),
      hfind]
    simp [hsid]
  obtain ⟨hstu, -, -, hlook⟩ := processStudentInBackground_spec
    { st with students := updateStudentLabels st.students sid sname labels }
    sid sname labels { student with name := sname, pageLabels := labels }
    pages hfindU hpdf hpp
  refine ⟨⟨student.id, sname, student.originalPdf, labels, .completed, student.processingError⟩, ?_, hpdf, ?_⟩
  · rw [hred, hstu]
    unfold markStatus
    rw [findStudent_map _ (fun s => by by_cases h : s.id = sid <;> simp [h]),
      hfindU]
    simp [hsid]
  · intro q
    rw [hred]
    exact hlook q

/-- Claim C8: submitting labels a second time for a student whose first
submission already ran appends a fresh copy of that student's stamped pages
to the problem collections, keeping the first submission's pages, so each
affected collection ends holding the pages twice. -/
theorem claim_C8_resubmission_appends_again (st : SessionState) (sid : Int)
    (sname : String) (labels : List (Nat × List Int)) (student : StudentData)
    (pages : List String)
    (hfind : findStudent st.students sid = some student)
    (hpdf : student.originalPdf = .ok pages)
    (hpp : ∀ e ∈ labels, 1 ≤ e.1) (q : Int) :
    lookupCollection
        ((handleLabel (handleLabel st sid sname labels).2
            sid sname labels).2).problemPages q
      = lookupCollection st.problemPages q
        ++ stampedPagesFor pages sid sname labels q
        ++ stampedPagesFor pages sid sname labels q := by
  obtain ⟨s1, hf1, hp1, hl1⟩ :=
    handleLabel_spec st sid sname labels student pages hfind hpdf hpp
  obtain ⟨s2, hf2, hp2, hl2⟩ :=
    handleLabel_spec (handleLabel st sid sname labels).2 sid sname labels
      s1 pages hf1 hp1 hpp
  rw [hl2 q, hl1 q]

/-- Witness for claim C8: after two submissions of page 1 labeled problem 2,
the collection for problem 2 holds the student's page twice. -/
theorem claim_C8_witness :
    lookupCollection
        ((handleLabel (handleLabel
            ⟨[⟨1, "", .ok ["pg"], [], .pending, none⟩], [], []⟩
            1 "Ann" [(1, [2])]).2 1 "Ann" [(1, [2])]).2).problemPages 2
      = lookupCollection
          (⟨[⟨1, "", .ok ["pg"], [], .pending, none⟩], [], []⟩ :
            SessionState).problemPages 2
        ++ stampedPagesFor ["pg"] 1 "Ann" [(1, [2])] 2
        ++ stampedPagesFor ["pg"] 1 "Ann" [(1, [2])] 2 :=
  claim_C8_resubmission_appends_again
    ⟨[⟨1, "", .ok ["pg"], [], .pending, none⟩], [], []⟩
    1 "Ann" [(1, [2])] ⟨1, "", .ok ["pg"], [], .pending, none⟩ ["pg"]
    (by decide) (by decide) (by decide) 2

/-- Claim C10: the keyboard label-add appends a duplicate occurrence of a
positive number already present on the page (when the sentinel is absent),
and the background processor files one stamped page per occurrence, so the
same (student, page, problem) combination is filed at least twice in that
problem's collection. -/
theorem claim_C10_keyboard_duplicates_filed (st : SessionState) (sid : Int)
    (sname : String) (labels : List (Nat × List Int)) (page : Nat) (n : Int)
    (student : StudentData) (pages : List String)
    (hfind : findStudent st.students sid = some student)
    (hpdf : student.originalPdf = .ok pages)
    (hpage : 1 ≤ page ∧ page ≤ pages.length)
    (hsent : (-1 : Int) ∉ getLabels labels page)
    (hmem : n ∈ getLabels labels page) (hn : 0 < n) :
    getLabels (handleKeyboardPageLabel labels page n) page
        = getLabels labels page ++ [n]
    ∧ lookupCollection (processStudentInBackground st sid sname
          [(page, getLabels labels page ++ [n])]).problemPages n
        = lookupCollection st.problemPages n
          ++ stampedPagesFor pages sid sname
              [(page, getLabels labels page ++ [n])] n
    ∧ 2 ≤ (stampedPagesFor pages sid sname
          [(page, getLabels labels page ++ [n])] n).length := by
  have hn1 : ¬ (n = -1) := by omega
  refine ⟨?_, ?_, ?_⟩
  · simp [handleKeyboardPageLabel, hn1, hn, hsent, getLabels_setLabels]
  · obtain ⟨-, -, -, hlook⟩ := processStudentInBackground_spec st sid sname
      [(page, getLabels labels page ++ [n])] student pages hfind hpdf
      (by rintro e he; simp only [List.mem_singleton] at he; subst he; exact hpage.1)
    exact hlook n
  · have hguard : page ≤ pages.length
        ∧ (getLabels labels page ++ [n]).length > 0 := by
      constructor
      · exact hpage.2
      · simp
    rw [stampedPagesFor]
    simp only [List.flatMap_cons, List.flatMap_nil, List.append_nil, hguard,
      if_pos, and_self]
    rw [List.length_map, List.filter_append]
    have hfn : List.filter (fun m => decide (0 < m ∧ m = n)) [n] = [n] := by
      simp [List.filter_cons, hn]
    have hmf : n ∈ List.filter (fun m => decide (0 < m ∧ m = n))
        (getLabels labels page) :=
      List.mem_filter.mpr ⟨hmem, by simp [hn]⟩
    have h1 : 1 ≤ (List.filter (fun m => decide (0 < m ∧ m = n))
        (getLabels labels page)).length :=
      List.length_pos.mpr (List.ne_nil_of_mem hmf)
    rw [hfn]
    simp only [List.length_append, List.length_cons, List.length_nil]
    omega

/-- Witness for claim C10: page 1 already labeled [2]; the keyboard add of 2
duplicates it and processing files two pages under problem 2. -/
theorem claim_C10_witness :
    getLabels (handleKeyboardPageLabel [(1, [2])] 1 2) 1 = [2] ++ [2]
    ∧ lookupCollection (processStudentInBackground
          ⟨[⟨1, "", .ok ["pg"], [], .pending, none⟩], [], []⟩
          1 "Bo" [(1, [2] ++ [2])]).problemPages 2
        = lookupCollection
            (⟨[⟨1, "", .ok ["pg"], [], .pending, none⟩], [], []⟩ :
              SessionState).problemPages 2
          ++ stampedPagesFor ["pg"] 1 "Bo" [(1, [2] ++ [2])] 2
    ∧ 2 ≤ (stampedPagesFor ["pg"] 1 "Bo" [(1, [2] ++ [2])] 2).length := by
  have h := claim_C10_keyboard_duplicates_filed
    ⟨[⟨1, "", .ok ["pg"], [], .pending, none⟩], [], []⟩
    1 "Bo" [(1, [2])] 1 2 ⟨1, "", .ok ["pg"], [], .pending, none⟩ ["pg"]
    (by decide) (by decide) (by decide) (by decide) (by decide) (by decide)
  simpa using h

/-! ## Finalizer lemmas (claim C6) -/

/-- The finalize loop as a function: store a rebuilt final PDF for every
problem key, left to right. -/
def applyFinals (E : List (Int × List ProblemPage))
    (fp : List (Int × List StampedPdf)) : List (Int × List StampedPdf) :=
  E.foldl (fun fp e => setFinal fp e.1 (buildFinalPdf e.2)) fp

theorem finalize_eq (st : SessionState) :
    finalize st = { st with finalPdfs := applyFinals st.problemPages st.finalPdfs } :=
  rfl

theorem lookupFinal_setFinal (fp : List (Int × List StampedPdf)) (k : Int)
    (v : List StampedPdf) (n : Int) :
    lookupFinal (setFinal fp k v) n
      = if n = k then some v else lookupFinal fp n := by
  induction fp with
  | nil =>
    by_cases hn : n = k
    · simp [setFinal, lookupFinal, hn]
    · simp [setFinal, lookupFinal, hn, Ne.symm hn]
  | cons e rest ih =>
    obtain ⟨a, b⟩ := e
    by_cases ha : a = k
    · subst ha
      by_cases hn : n = a
      · subst hn; simp [setFinal, lookupFinal]
      · simp [setFinal, lookupFinal, hn, Ne.symm hn]
    · by_cases hn : n = a
      · subst hn
        simp [setFinal, lookupFinal, ha, Ne.symm ha]
      · simp [setFinal, lookupFinal, ha, hn, Ne.symm hn, ih]

theorem setFinal_self (fp : List (Int × List StampedPdf)) (k : Int)
    (v : List StampedPdf) (h : lookupFinal fp k = some v) :
    setFinal fp k v = fp := by
  induction fp with
  | nil => simp [lookupFinal] at h
  | cons e rest ih =>
    obtain ⟨a, b⟩ := e
    by_cases ha : a = k
    · subst ha
      rw [lookupFinal, if_pos rfl] at h
      cases h
      simp [setFinal]
    · rw [lookupFinal, if_neg ha] at h
      simp [setFinal, ha, ih h]

/-- Key of the last entry matching n, mirroring that a later store for the
same problem number overwrites an earlier one. -/
def assocLast : List (Int × List ProblemPage) → Int → Option (List ProblemPage)
  | [], _ => none
  | (k, v) :: rest, n =>
      match assocLast rest n with
      | some w => some w
      | none => if k = n then some v else none

theorem lookupFinal_applyFinals (E : List (Int × List ProblemPage))
    (fp : List (Int × List StampedPdf)) (n : Int) :
    lookupFinal (applyFinals E fp) n
      = match assocLast E n with
        | some ps => some (buildFinalPdf ps)
        | none => lookupFinal fp n := by
  induction E generalizing fp with
  | nil => simp [applyFinals, assocLast]
  | cons e rest ih =>
    obtain ⟨k, v⟩ := e
    rw [applyFinals, List.foldl_cons]
    have hfold : rest.foldl (fun fp e => setFinal fp e.1 (buildFinalPdf e.2))
          (setFinal fp k (buildFinalPdf v))
        = applyFinals rest (setFinal fp k (buildFinalPdf v)) := rfl
    rw [hfold, ih, assocLast]
    cases hal : assocLast rest n with
    | some w => simp
    | none =>
      simp only
      rw [lookupFinal_setFinal]
      by_cases hn : k = n
      · simp [hn]
      · have hn2 : ¬ n = k := fun hh => hn hh.symm
        simp [hn, hn2]

theorem applyFinals_fixed (E : List (Int × List ProblemPage))
    (fp : List (Int × List StampedPdf))
    (h : ∀ e ∈ E, lookupFinal fp e.1 = some (buildFinalPdf e.2)) :
    applyFinals E fp = fp := by
  induction E with
  | nil => rfl
  | cons e rest ih =>
    rw [applyFinals, List.foldl_cons,
      setFinal_self _ _ _ (h e (List.mem_cons_self _ _))]
    exact ih (fun x hx => h x (List.mem_cons_of_mem _ hx))

theorem assocLast_not_mem (E : List (Int × List ProblemPage)) (n : Int)
    (h : n ∉ E.map Prod.fst) : assocLast E n = none := by
  induction E with
  | nil => rfl
  | cons e rest ih =>
    obtain ⟨k, v⟩ := e
    simp only [List.map_cons, List.mem_cons, not_or] at h
    rw [assocLast, ih h.2]
    simp only
    exact if_neg (fun hh => h.1 hh.symm)

theorem assocLast_mem_nodup (E : List (Int × List ProblemPage))
    (h : (E.map Prod.fst).Nodup) :
    ∀ e ∈ E, assocLast E e.1 = some e.2 := by
  induction E with
  | nil => intro e he; cases he
  | cons f rest ih =>
    intro e he
    obtain ⟨k, v⟩ := f
    simp only [List.map_cons, List.nodup_cons] at h
    rcases List.mem_cons.mp he with rfl | hmem
    · show assocLast ((k, v) :: rest) k = some v
      rw [assocLast, assocLast_not_mem rest k (by simpa using h.1)]
      simp
    · rw [assocLast, ih h.2 e hmem]

theorem assocLast_eq_lookupCollection (E : List (Int × List ProblemPage))
    (h : (E.map Prod.fst).Nodup) (n : Int) (hn : n ∈ E.map Prod.fst) :
    assocLast E n = some (lookupCollection E n) := by
  induction E with
  | nil => cases hn
  | cons f rest ih =>
    obtain ⟨k, v⟩ := f
    simp only [List.map_cons, List.nodup_cons] at h
    simp only [List.map_cons, List.mem_cons] at hn
    by_cases hk : n = k
    · subst hk
      rw [assocLast, assocLast_not_mem rest n h.1]
      simp [lookupCollection]
    · have hmem : n ∈ rest.map Prod.fst := hn.resolve_left hk
      have hk2 : ¬ k = n := fun hh => hk hh.symm
      rw [assocLast, ih h.2 hmem]
      simp [lookupCollection, hk2]

/-- Claim C6: with distinct problem keys, finalize stores for every present
problem number the document rebuilt from that problem's current collection
(never a cached copy, so later contributions appear after re-finalizing),
and re-finalizing with unchanged collections returns an identical session
state, final documents included. -/
theorem claim_C6_finalize_rebuilds_and_idempotent (st : SessionState)
    (h : (st.problemPages.map Prod.fst).Nodup) :
    (∀ n ∈ st.problemPages.map Prod.fst,
        lookupFinal (finalize st).finalPdfs n
          = some (buildFinalPdf (lookupCollection st.problemPages n)))
    ∧ finalize (finalize st) = finalize st := by
  constructor
  · intro n hn
    rw [finalize_eq]
    show lookupFinal (applyFinals st.problemPages st.finalPdfs) n = _
    rw [lookupFinal_applyFinals, assocLast_eq_lookupCollection _ h n hn]
  · have h2 : ∀ e ∈ st.problemPages,
        lookupFinal (applyFinals st.problemPages st.finalPdfs) e.1
          = some (buildFinalPdf e.2) := by
      intro e he
      rw [lookupFinal_applyFinals, assocLast_mem_nodup st.problemPages h e he]
    have h3 := applyFinals_fixed st.problemPages
      (applyFinals st.problemPages st.finalPdfs) h2
    rw [finalize_eq, finalize_eq]
    show ({ st with finalPdfs := applyFinals st.problemPages (applyFinals st.problemPages st.finalPdfs) } : SessionState) = { st with finalPdfs := applyFinals st.problemPages st.finalPdfs }
    rw [h3]

/-- Witness for claim C6 at a one-problem session. -/
theorem claim_C6_witness :
    lookupFinal
        (finalize ⟨[], [(1, [⟨1, "A", 1, ⟨"p", "w"⟩⟩])], []⟩).finalPdfs 1
      = some (buildFinalPdf
          (lookupCollection [(1, [⟨1, "A", 1, ⟨"p", "w"⟩⟩])] 1))
    ∧ finalize (finalize ⟨[], [(1, [⟨1, "A", 1, ⟨"p", "w"⟩⟩])], []⟩)
      = finalize ⟨[], [(1, [⟨1, "A", 1, ⟨"p", "w"⟩⟩])], []⟩ :=
  ⟨(claim_C6_finalize_rebuilds_and_idempotent
      ⟨[], [(1, [⟨1, "A", 1, ⟨"p", "w"⟩⟩])], []⟩ (by decide)).1 1 (by decide),
   (claim_C6_finalize_rebuilds_and_idempotent
      ⟨[], [(1, [⟨1, "A", 1, ⟨"p", "w"⟩⟩])], []⟩ (by decide)).2⟩
